import Mathlib

/-!
Verification of the AWS-Resource-Optimizer-Agent repository.

This file gives a shallow embedding, in Lean 4, of the pure computational
content of the repository's five Python source files:

  * `agent.py` — interactive agent: OAuth token fetch, MCP transport,
    tool-list pagination (`get_full_tools_list`), 64-character tool-name
    filter, memory hook provider, and the read-eval-print loop with its
    regex post-processing of thinking tags and rate-limit check;
  * `runtime_agent.py` — runtime edition: `get_access_token`,
    `create_transport`, `get_tools` pagination and filter;
  * `setup/01-create-iam-role.py`, `setup/02-create-gateway.py`,
    `setup/03-create-smithy-targets.py` — provisioning scripts: their JSON
    payloads and their error-handling branch structure.

External collaborators (the gateway, the token endpoint, the hosted model,
the memory store, the AWS control plane) are modelled as explicit inputs:
the gateway as a function from call number to returned page, the token
endpoint as a sequence of tokens, SDK call outcomes as `Except` values.
Python strings are modelled as `List Char`; regular-expression matching is
implemented character by character following the semantics of the concrete
patterns used in `agent.py` (ASCII case folding for `re.IGNORECASE`).
-/

/-! ## Tools and pages (agent.py / runtime_agent.py) -/

/-- A tool as enumerated from the gateway; `agent.py` and `runtime_agent.py`
only ever inspect its `tool_name`. -/
structure Tool where
  tool_name : String
deriving DecidableEq, Repr

/-- The result object of one `list_tools_sync` call: the page's tools plus
the opaque continuation token (`None` on the final page). -/
structure ToolPage where
  tools : List Tool
  pagination_token : Option String
deriving Repr

/-- One execution of the `while` loop shared by `get_full_tools_list`
(`agent.py`, lines 71–84) and the loop in `get_tools`
(`runtime_agent.py`, lines 44–51).  The gateway is `g`: the `i`-th call to
`list_tools_sync` returns page `g i`.  State per iteration: accumulated
`tools`, the `pagination_token` to pass, and (for the specification) the
trace `calls` of tokens passed so far.  `fuel` bounds the number of
iterations; `none` means the loop did not finish within `fuel` calls. -/
def paginateAux (g : Nat → ToolPage) :
    Nat → Nat → Option String → List Tool → List (Option String) →
    Option (List Tool × List (Option String))
  | 0, _, _, _, _ => none
  | fuel + 1, i, tok, tools, calls =>
    let tmp_tools := g i
    let tools2 := tools ++ tmp_tools.tools
    let calls2 := calls ++ [tok]
    match tmp_tools.pagination_token with
    | none => some (tools2, calls2)
    | some t => paginateAux g fuel (i + 1) (some t) tools2 calls2

/-- `get_full_tools_list` from `agent.py`: starts with `pagination_token = None`,
no tools accumulated, no calls made. -/
def get_full_tools_list (g : Nat → ToolPage) (fuel : Nat) :
    Option (List Tool × List (Option String)) :=
  paginateAux g fuel 0 none [] []

/-- The pagination loop inside `get_tools` of `runtime_agent.py`
(`while True: ... break`), which has the same iteration structure. -/
def getToolsPaginate (g : Nat → ToolPage) (fuel : Nat) :
    Option (List Tool × List (Option String)) :=
  paginateAux g fuel 0 none [] []

/-- The concatenation, in order, of the tools of the first `n` pages. -/
def pagesTools (g : Nat → ToolPage) (n : Nat) : List Tool :=
  ((List.range n).map (fun i => (g i).tools)).flatten

/-- The pagination tokens returned by the first `n` pages, in order. -/
def pageTokens (g : Nat → ToolPage) (n : Nat) : List (Option String) :=
  (List.range n).map (fun i => (g i).pagination_token)

/-! ## 64-character tool-name filter (agent.py line 208, runtime_agent.py line 54) -/

/-- `tools = [tool for tool in all_tools if len(tool.tool_name) <= 64]`
(`agent.py`, line 208). -/
def filter_tools_64 (all_tools : List Tool) : List Tool :=
  all_tools.filter (fun tool => tool.tool_name.length ≤ 64)

/-- `tools = [t for t in all_tools if len(t.tool_name) <= 64]`
(`runtime_agent.py`, line 54). -/
def runtime_filter_tools (all_tools : List Tool) : List Tool :=
  all_tools.filter (fun t => t.tool_name.length ≤ 64)

/-! ## Pagination-loop lemmas -/

theorem range_tools_shift (g : Nat → ToolPage) (i m : Nat) :
    (List.range (m + 1)).map (fun k => (g (i + k)).tools) =
      (g i).tools :: (List.range m).map (fun k => (g (i + 1 + k)).tools) := by
  rw [List.range_succ_eq_map]
  simp only [List.map_cons, List.map_map, Nat.add_zero]
  congr 1
  apply List.map_congr_left
  intro k _
  simp only [Function.comp]
  have harith : i + Nat.succ k = i + 1 + k := by omega
  rw [harith]

theorem range_tokens_shift (g : Nat → ToolPage) (i m : Nat) :
    (List.range (m + 1)).map (fun k => (g (i + k)).pagination_token) =
      (g i).pagination_token ::
        (List.range m).map (fun k => (g (i + 1 + k)).pagination_token) := by
  rw [List.range_succ_eq_map]
  simp only [List.map_cons, List.map_map, Nat.add_zero]
  congr 1
  apply List.map_congr_left
  intro k _
  simp only [Function.comp]
  have harith : i + Nat.succ k = i + 1 + k := by omega
  rw [harith]

theorem paginateAux_spec (g : Nat → ToolPage) :
    ∀ (n i : Nat) (tok : Option String) (tools : List Tool)
      (calls : List (Option String)) (fuel : Nat),
      n < fuel →
      (g (i + n)).pagination_token = none →
      (∀ k, k < n → (g (i + k)).pagination_token ≠ none) →
      paginateAux g fuel i tok tools calls =
        some (tools ++ ((List.range (n + 1)).map (fun k => (g (i + k)).tools)).flatten,
              calls ++ tok :: (List.range n).map (fun k => (g (i + k)).pagination_token)) := by
  intro n
  induction n with
  | zero =>
    intro i tok tools calls fuel hfuel hlast _
    cases fuel with
    | zero => omega
    | succ fuel =>
      have hlast2 : (g i).pagination_token = none := by simpa using hlast
      simp [paginateAux, hlast2, List.range_succ]
  | succ n ih =>
    intro i tok tools calls fuel hfuel hlast hmid
    cases fuel with
    | zero => omega
    | succ fuel =>
      have h0 : (g i).pagination_token ≠ none := by
        have := hmid 0 (Nat.succ_pos n)
        simpa using this
      obtain ⟨t, ht⟩ : ∃ t, (g i).pagination_token = some t := by
        cases h : (g i).pagination_token with
        | none => exact absurd h h0
        | some t => exact ⟨t, rfl⟩
      have hlast2 : (g (i + 1 + n)).pagination_token = none := by
        have harith : i + 1 + n = i + (n + 1) := by omega
        rw [harith]; exact hlast
      have hmid2 : ∀ k, k < n → (g (i + 1 + k)).pagination_token ≠ none := by
        intro k hk
        have harith : i + 1 + k = i + (k + 1) := by omega
        rw [harith]
        exact hmid (k + 1) (by omega)
      have hrec := ih (i + 1) (some t) (tools ++ (g i).tools) (calls ++ [tok]) fuel
        (by omega) hlast2 hmid2
      simp only [paginateAux, ht]
      rw [hrec, range_tools_shift g i (n + 1), range_tokens_shift g i n, ht]
      simp [List.append_assoc]

theorem paginateAux_isSome (g : Nat → ToolPage) :
    ∀ (n i : Nat) (tok : Option String) (tools : List Tool) (calls : List (Option String)),
      (g (i + n)).pagination_token = none →
      (paginateAux g (n + 1) i tok tools calls).isSome = true := by
  intro n
  induction n with
  | zero =>
    intro i tok tools calls hlast
    have hlast2 : (g i).pagination_token = none := by simpa using hlast
    simp [paginateAux, hlast2]
  | succ n ih =>
    intro i tok tools calls hlast
    cases ht : (g i).pagination_token with
    | none => simp [paginateAux, ht]
    | some t =>
      simp only [paginateAux, ht]
      exact ih (i + 1) (some t) _ _
        (by rw [show i + 1 + n = i + (n + 1) from by omega]; exact hlast)

/-- A gateway that always returns another continuation token. -/
def gEndless : Nat → ToolPage := fun _ => ⟨[], some ("more")⟩

theorem paginateAux_gEndless_none :
    ∀ (fuel i : Nat) (tok : Option String) (tools : List Tool) (calls : List (Option String)),
      paginateAux gEndless fuel i tok tools calls = none := by
  intro fuel
  induction fuel with
  | zero => intro i tok tools calls; rfl
  | succ fuel ih =>
    intro i tok tools calls
    simp only [paginateAux, gEndless]
    apply ih

theorem get_full_tools_list_spec (g : Nat → ToolPage) (n fuel : Nat)
    (hfuel : n < fuel)
    (hlast : (g n).pagination_token = none)
    (hmid : ∀ k, k < n → (g k).pagination_token ≠ none) :
    get_full_tools_list g fuel = some (pagesTools g (n + 1), none :: pageTokens g n) := by
  have h := paginateAux_spec g n 0 none [] [] fuel hfuel (by simpa using hlast)
    (by intro k hk; simpa using hmid k hk)
  unfold get_full_tools_list
  rw [h]
  unfold pagesTools pageTokens
  simp

/-- C1: for every sequence of pages returned by the gateway (the `i`-th
`list_tools_sync` call returning page `g i`, page `n` being the first whose
`pagination_token` is `None`), both `get_full_tools_list` (`agent.py`) and the
pagination loop of `get_tools` (`runtime_agent.py`) return the concatenation of
all pages' tools in page order, and the trace of tokens passed to
`list_tools_sync` is `none` for the first call followed by exactly the token
returned by each previous page; the loop stops after page `n`. -/
theorem C1_pagination_loop (g : Nat → ToolPage) (n fuel : Nat)
    (hfuel : n < fuel)
    (hlast : (g n).pagination_token = none)
    (hmid : ∀ k, k < n → (g k).pagination_token ≠ none) :
    get_full_tools_list g fuel = some (pagesTools g (n + 1), none :: pageTokens g n) ∧
    getToolsPaginate g fuel = some (pagesTools g (n + 1), none :: pageTokens g n) := by
  have h := get_full_tools_list_spec g n fuel hfuel hlast hmid
  exact ⟨h, h⟩

/-- A concrete two-page gateway used by witnesses. -/
def gTwoPages : Nat → ToolPage := fun i =>
  if i = 0 then ⟨[⟨("ListMetrics")⟩], some ("page-2")⟩
  else ⟨[⟨("GetMetricData")⟩], none⟩

theorem C1_pagination_loop_witness :
    (1 : Nat) < 3 ∧ (gTwoPages 1).pagination_token = none ∧
    get_full_tools_list gTwoPages 3 =
      some (pagesTools gTwoPages 2, none :: pageTokens gTwoPages 1) := by
  have hmid : ∀ k, k < 1 → (gTwoPages k).pagination_token ≠ none := by
    intro k hk
    have hk0 : k = 0 := by omega
    rw [hk0]
    decide
  exact ⟨by decide, by decide,
    (C1_pagination_loop gTwoPages 1 3 (by decide) (by decide) hmid).1⟩

/-- C5: if the gateway eventually returns a page with `pagination_token = None`,
both pagination loops terminate (some iteration bound suffices); and there is a
gateway (one that always returns a continuation token) on which no iteration
bound ever suffices, i.e. the loop never terminates. -/
theorem C5_pagination_termination :
    (∀ g : Nat → ToolPage, (∃ n, (g n).pagination_token = none) →
      (∃ fuel, (get_full_tools_list g fuel).isSome = true) ∧
      (∃ fuel, (getToolsPaginate g fuel).isSome = true)) ∧
    (∃ g : Nat → ToolPage, (∀ n, (g n).pagination_token ≠ none) ∧
      (∀ fuel, get_full_tools_list g fuel = none) ∧
      (∀ fuel, getToolsPaginate g fuel = none)) := by
  constructor
  · intro g hg
    obtain ⟨n, hn⟩ := hg
    have h := paginateAux_isSome g n 0 none [] [] (by simpa using hn)
    exact ⟨⟨n + 1, h⟩, ⟨n + 1, h⟩⟩
  · refine ⟨gEndless, ?_, ?_, ?_⟩
    · intro n h
      simp [gEndless] at h
    · intro fuel
      exact paginateAux_gEndless_none fuel 0 none [] []
    · intro fuel
      exact paginateAux_gEndless_none fuel 0 none [] []

/-- A gateway whose very first page is final. -/
def gOnePage : Nat → ToolPage := fun _ => ⟨[], none⟩

theorem C5_pagination_termination_witness :
    (∃ n, (gOnePage n).pagination_token = none) ∧
    (∃ fuel, (get_full_tools_list gOnePage fuel).isSome = true) :=
  ⟨⟨0, rfl⟩, (C5_pagination_termination.1 gOnePage ⟨0, rfl⟩).1⟩

/-- C2: in both `agent.py` and `runtime_agent.py`, exactly the enumerated tools
whose `tool_name` has length at most 64 are kept (hence passed to the `Agent`
constructor), in their original relative order (the result is a sublist);
every tool with a longer name is dropped. -/
theorem C2_tool_name_filter (ts : List Tool) :
    List.Sublist (filter_tools_64 ts) ts ∧
    (∀ t : Tool, t ∈ filter_tools_64 ts ↔ t ∈ ts ∧ t.tool_name.length ≤ 64) ∧
    (∀ t : Tool, t ∈ ts → 64 < t.tool_name.length → t ∉ filter_tools_64 ts) ∧
    runtime_filter_tools ts = filter_tools_64 ts := by
  refine ⟨List.filter_sublist ts, ?_, ?_, rfl⟩
  · intro t
    simp [filter_tools_64, List.mem_filter]
  · intro t _ hlen hmem
    have h := (List.mem_filter.1 hmem).2
    simp only [decide_eq_true_eq] at h
    omega

/-- A tool whose name has 65 characters. -/
def longTool : Tool := ⟨String.mk (List.replicate 65 'a')⟩

/-- A tool with a short name. -/
def shortTool : Tool := ⟨("ListMetrics")⟩

/-- A concrete enumerated tool list used by the C2 witness. -/
def toolListEx : List Tool := [shortTool, longTool]

theorem C2_tool_name_filter_witness :
    longTool ∈ toolListEx ∧ 64 < longTool.tool_name.length ∧
    longTool ∉ filter_tools_64 toolListEx :=
  ⟨by decide, by decide,
    (C2_tool_name_filter toolListEx).2.2.1 longTool (by decide) (by decide)⟩

/-! ## Response post-processing (agent.py, lines 328–343)

`main` cleans each string response with two `re.sub` calls and `strip()`:

    cleaned_response = re.sub(r'<thinking>.*?</thinking>\s*', '', response,
                              flags=re.DOTALL | re.IGNORECASE)
    cleaned_response = re.sub(r'\s*<thinking>.*', '', cleaned_response,
                              flags=re.DOTALL | re.IGNORECASE)
    cleaned_response = cleaned_response.strip()

The patterns are ASCII-only, so `re.IGNORECASE` is ASCII case folding here. -/

/-- ASCII lowercasing on code points: the case folding applied by
`re.IGNORECASE` to the ASCII-only patterns of `agent.py`. -/
def lowerAsciiNat (n : Nat) : Nat := if 65 ≤ n ∧ n ≤ 90 then n + 32 else n

/-- Case-insensitive character comparison (ASCII folding). -/
def ciEq (p c : Char) : Bool := lowerAsciiNat p.toNat == lowerAsciiNat c.toNat

/-- Does `s` start with pattern `pat`, case-insensitively? -/
def ciStartsWith : List Char → List Char → Bool
  | [], _ => true
  | _ :: _, [] => false
  | p :: ps, c :: cs => ciEq p c && ciStartsWith ps cs

/-- The remainder of `s` after a case-insensitive match of `pat` at its head. -/
def ciDrop : List Char → List Char → Option (List Char)
  | [], s => some s
  | _ :: _, [] => none
  | p :: ps, c :: cs => if ciEq p c then ciDrop ps cs else none

/-- Case-insensitive substring containment: `pat in s.lower()` for an
ASCII-lowercase pattern `pat`. -/
def containsCi (pat : List Char) : List Char → Bool
  | [] => ciStartsWith pat []
  | c :: cs => ciStartsWith pat (c :: cs) || containsCi pat cs

/-- The characters matched by the regex class `\s` and stripped by
`str.strip()` (ASCII whitespace). -/
def isPySpace (c : Char) : Bool :=
  c = ' ' || c = '\t' || c = '\n' || c = '\r' || c = '\x0b' || c = '\x0c'

/-- The literal open pattern of both regexes. -/
def openTag : List Char := ("<thinking>").toList

/-- The literal close pattern of the first regex. -/
def closeTag : List Char := ("</thinking>").toList

/-- Greedy `\s*`. -/
def dropWs (s : List Char) : List Char := s.dropWhile isPySpace

/-- The non-greedy `.*?</thinking>` under `DOTALL`: the remainder of `s`
after the first case-insensitive occurrence of the close pattern. -/
def findClose : List Char → Option (List Char)
  | [] => none
  | c :: cs =>
    match ciDrop closeTag (c :: cs) with
    | some rest => some rest
    | none => findClose cs

/-- A leftmost match of `<thinking>.*?</thinking>\s*` at the head of `s`:
the open tag, the shortest extent up to a close tag, then trailing
whitespace; returns the remainder of `s` after the match. -/
def matchBlock (s : List Char) : Option (List Char) :=
  match ciDrop openTag s with
  | none => none
  | some afterOpen =>
    match findClose afterOpen with
    | none => none
    | some afterClose => some (dropWs afterClose)

theorem ciDrop_length : ∀ (p s r : List Char), ciDrop p s = some r →
    r.length + p.length = s.length := by
  intro p
  induction p with
  | nil =>
    intro s r hp
    simp only [ciDrop, Option.some.injEq] at hp
    simp [hp]
  | cons q qs ih =>
    intro s r hp
    cases s with
    | nil => simp [ciDrop] at hp
    | cons c2 cs2 =>
      simp only [ciDrop] at hp
      split at hp
      · have := ih cs2 r hp
        simp only [List.length_cons]
        omega
      · exact absurd hp (by simp)

theorem dropWs_length (s : List Char) : (dropWs s).length ≤ s.length := by
  unfold dropWs
  induction s with
  | nil => simp
  | cons c cs ih =>
    rw [List.dropWhile_cons]
    split
    · simp only [List.length_cons]
      omega
    · simp

theorem findClose_length : ∀ (s r : List Char), findClose s = some r →
    r.length < s.length := by
  intro s
  induction s with
  | nil => intro r hp; simp [findClose] at hp
  | cons c2 cs2 ih =>
    intro r hp
    rw [findClose] at hp
    cases hm : ciDrop closeTag (c2 :: cs2) with
    | some rest =>
      rw [hm] at hp
      simp only [Option.some.injEq] at hp
      have hlen := ciDrop_length closeTag (c2 :: cs2) rest hm
      have hct : closeTag.length = 11 := rfl
      subst hp
      simp only [List.length_cons] at hlen ⊢
      omega
    | none =>
      rw [hm] at hp
      have := ih r hp
      simp only [List.length_cons]
      omega

theorem matchBlock_length (s r : List Char) (h : matchBlock s = some r) :
    r.length < s.length := by
  unfold matchBlock at h
  cases h1 : ciDrop openTag s with
  | none => simp [h1] at h
  | some a =>
    simp only [h1] at h
    cases h2 : findClose a with
    | none => simp [h2] at h
    | some b =>
      simp only [h2, Option.some.injEq] at h
      have l1 := ciDrop_length openTag s a h1
      have l2 := findClose_length a b h2
      have l3 := dropWs_length b
      have hot : openTag.length = 10 := rfl
      subst h
      omega

/-- `re.sub(r'<thinking>.*?</thinking>\s*', '', response, flags=re.DOTALL | re.IGNORECASE)`
(`agent.py`, line 331): scan left to right; at each position remove a leftmost
match of the block pattern and continue after it, otherwise keep the character
and move on. -/
def subBlocks : List Char → List Char
  | [] => []
  | c :: cs =>
    match h : matchBlock (c :: cs) with
    | some rest => subBlocks rest
    | none => c :: subBlocks cs
termination_by s => s.length
decreasing_by
  · exact matchBlock_length (c :: cs) rest h
  · simp only [List.length_cons]
    omega

/-- Does `\s*<thinking>` match at the head of `s` (with backtracking over the
whitespace run)? -/
def matchAtUnclosed : List Char → Bool
  | [] => false
  | c :: cs => ciStartsWith openTag (c :: cs) || (isPySpace c && matchAtUnclosed cs)

/-- `re.sub(r'\s*<thinking>.*', '', cleaned_response, flags=re.DOTALL | re.IGNORECASE)`
(`agent.py`, line 333): under `DOTALL` a match extends to the end of the
string, so everything from the leftmost match position (the whitespace run
immediately preceding the first remaining open tag) onward is removed. -/
def subUnclosed : List Char → List Char
  | [] => []
  | c :: cs => if matchAtUnclosed (c :: cs) then [] else c :: subUnclosed cs

/-- Removal of trailing ASCII whitespace (the right half of `str.strip()`). -/
def rstripWs : List Char → List Char
  | [] => []
  | c :: cs =>
    match rstripWs cs with
    | [] => if isPySpace c then [] else [c]
    | d :: ds => c :: d :: ds

/-- `str.strip()` (`agent.py`, line 334). -/
def pyStrip (s : List Char) : List Char := rstripWs (s.dropWhile isPySpace)

/-- The complete post-processing applied to a string response in `main`
(`agent.py`, lines 331–334): remove complete thinking blocks, remove any
remaining open tag together with everything after it (and the whitespace
before it), then strip surrounding whitespace. -/
def cleanResponse (response : List Char) : List Char :=
  pyStrip (subUnclosed (subBlocks response))

theorem char_eq_of_toNat (a b : Char) (h : a.toNat = b.toNat) : a = b :=
  Char.ext (UInt32.ext h)

theorem ciEq_refl (c : Char) : ciEq c c = true := by
  simp [ciEq]

theorem lowerAsciiNat_eq_60 (n : Nat) : lowerAsciiNat n = 60 ↔ n = 60 := by
  unfold lowerAsciiNat
  split <;> omega

theorem ciEq_lt_iff (c : Char) : ciEq '<' c = true ↔ c = '<' := by
  constructor
  · intro h
    simp only [ciEq, beq_iff_eq] at h
    have h2 : lowerAsciiNat (Char.toNat '<') = 60 := by decide
    rw [h2] at h
    have h3 : c.toNat = 60 := (lowerAsciiNat_eq_60 c.toNat).1 h.symm
    exact char_eq_of_toNat c '<' h3
  · intro h
    rw [h]
    decide

theorem ciEq_lt_false (c : Char) (h : c ≠ '<') : ciEq '<' c = false := by
  cases hc : ciEq '<' c with
  | false => rfl
  | true => exact absurd ((ciEq_lt_iff c).1 hc) h

theorem ciStartsWith_openTag_false (c : Char) (cs : List Char) (h : c ≠ '<') :
    ciStartsWith openTag (c :: cs) = false := by
  have hopen : openTag = '<' :: ("thinking>").toList := rfl
  rw [hopen, ciStartsWith, ciEq_lt_false c h]
  rfl

theorem ciDrop_head_lt_none (p : List Char) (c : Char) (cs : List Char) (h : c ≠ '<') :
    ciDrop ('<' :: p) (c :: cs) = none := by
  rw [ciDrop, ciEq_lt_false c h]
  rfl

theorem ciDrop_append_self : ∀ (p r : List Char), ciDrop p (p ++ r) = some r := by
  intro p
  induction p with
  | nil => intro r; rfl
  | cons q qs ih =>
    intro r
    rw [List.cons_append, ciDrop, ciEq_refl]
    simp only [if_true]
    exact ih r

theorem ciStartsWith_isSome : ∀ (p s : List Char),
    ciStartsWith p s = (ciDrop p s).isSome := by
  intro p
  induction p with
  | nil => intro s; rfl
  | cons q qs ih =>
    intro s
    cases s with
    | nil => rfl
    | cons c cs =>
      rw [ciStartsWith, ciDrop]
      cases hq : ciEq q c with
      | false => rfl
      | true =>
        simp only [Bool.true_and, if_true]
        exact ih cs

theorem ciStartsWith_openTag_append (r : List Char) :
    ciStartsWith openTag (openTag ++ r) = true := by
  rw [ciStartsWith_isSome, ciDrop_append_self]
  rfl

theorem ciStartsWith_append_of : ∀ (p x r : List Char),
    ciStartsWith p x = true → ciStartsWith p (x ++ r) = true := by
  intro p
  induction p with
  | nil => intro x r _; rfl
  | cons q qs ih =>
    intro x r h
    cases x with
    | nil => exact absurd h (by simp [ciStartsWith])
    | cons c cs =>
      rw [ciStartsWith] at h
      have h1 : ciEq q c = true := by
        cases hq : ciEq q c
        · rw [hq] at h; exact absurd h (by simp)
        · rfl
      have h2 : ciStartsWith qs cs = true := by
        rw [h1] at h; simpa using h
      rw [List.cons_append, ciStartsWith, h1, ih cs r h2]
      rfl

theorem ciStartsWith_nil_pat (pat : List Char) (h : ciStartsWith pat [] = true) :
    pat = [] := by
  cases pat with
  | nil => rfl
  | cons q qs => exact absurd h (by simp [ciStartsWith])

theorem containsCi_nil_pat : ∀ s : List Char, containsCi [] s = true := by
  intro s
  cases s with
  | nil => rfl
  | cons c cs => rw [containsCi]; rfl

theorem containsCi_append_left : ∀ (pat w t : List Char),
    containsCi pat t = true → containsCi pat (w ++ t) = true := by
  intro pat w
  induction w with
  | nil => intro t h; exact h
  | cons a w2 ih =>
    intro t h
    rw [List.cons_append, containsCi, ih t h]
    simp

theorem containsCi_append_right : ∀ (pat u r : List Char),
    containsCi pat u = true → containsCi pat (u ++ r) = true := by
  intro pat u
  induction u with
  | nil =>
    intro r h
    have hnil : pat = [] := ciStartsWith_nil_pat pat h
    rw [hnil]
    exact containsCi_nil_pat r
  | cons c cs ih =>
    intro r h
    rw [containsCi] at h
    rw [List.cons_append, containsCi]
    cases hsw : ciStartsWith pat (c :: cs) with
    | true =>
      have h3 := ciStartsWith_append_of pat (c :: cs) r hsw
      rw [List.cons_append] at h3
      rw [h3]
      simp
    | false =>
      rw [hsw] at h
      simp only [Bool.false_or] at h
      rw [ih r h]
      simp

theorem containsCi_false_left (pat w t : List Char)
    (h : containsCi pat (w ++ t) = false) : containsCi pat t = false := by
  cases h2 : containsCi pat t with
  | false => rfl
  | true => rw [containsCi_append_left pat w t h2] at h; exact absurd h (by simp)

theorem containsCi_false_right (pat u r : List Char)
    (h : containsCi pat (u ++ r) = false) : containsCi pat u = false := by
  cases h2 : containsCi pat u with
  | false => rfl
  | true => rw [containsCi_append_right pat u r h2] at h; exact absurd h (by simp)

theorem subUnclosed_prefix : ∀ s : List Char, ∃ r, s = subUnclosed s ++ r := by
  intro s
  induction s with
  | nil => exact ⟨[], rfl⟩
  | cons c cs ih =>
    cases hma : matchAtUnclosed (c :: cs) with
    | true => exact ⟨c :: cs, by simp [subUnclosed, hma]⟩
    | false =>
      obtain ⟨r, hr⟩ := ih
      refine ⟨r, ?_⟩
      rw [subUnclosed, if_neg (by simp [hma]), List.cons_append, ← hr]

theorem dropWhile_suffix (p : Char → Bool) : ∀ s : List Char,
    ∃ w, s = w ++ s.dropWhile p := by
  intro s
  induction s with
  | nil => exact ⟨[], rfl⟩
  | cons c cs ih =>
    rw [List.dropWhile_cons]
    split
    · obtain ⟨w, hw⟩ := ih
      exact ⟨c :: w, by rw [List.cons_append, ← hw]⟩
    · exact ⟨[], rfl⟩

theorem rstripWs_prefix : ∀ s : List Char, ∃ r, s = rstripWs s ++ r := by
  intro s
  induction s with
  | nil => exact ⟨[], rfl⟩
  | cons c cs ih =>
    obtain ⟨r, hr⟩ := ih
    cases hcs : rstripWs cs with
    | nil =>
      simp only [rstripWs, hcs]
      by_cases hws : isPySpace c = true
      · rw [if_pos hws]
        exact ⟨c :: cs, rfl⟩
      · rw [if_neg hws]
        exact ⟨cs, rfl⟩
    | cons d ds =>
      simp only [rstripWs, hcs]
      rw [hcs] at hr
      exact ⟨r, by rw [List.cons_append, ← hr]⟩

theorem subUnclosed_no_tag : ∀ s : List Char,
    containsCi openTag (subUnclosed s) = false := by
  intro s
  induction s with
  | nil => rfl
  | cons c cs ih =>
    cases hma : matchAtUnclosed (c :: cs) with
    | true => simp [subUnclosed, hma]; rfl
    | false =>
      rw [subUnclosed, if_neg (by simp [hma])]
      rw [containsCi, ih]
      cases hsw : ciStartsWith openTag (c :: subUnclosed cs) with
      | false => rfl
      | true =>
        exfalso
        obtain ⟨r, hr⟩ := subUnclosed_prefix cs
        have h2 := ciStartsWith_append_of openTag (c :: subUnclosed cs) r hsw
        rw [List.cons_append, ← hr] at h2
        have h3 : matchAtUnclosed (c :: cs) = true := by
          rw [matchAtUnclosed, h2]
          simp
        rw [hma] at h3
        exact Bool.noConfusion h3

theorem subBlocks_id_of_no_tag : ∀ s : List Char,
    containsCi openTag s = false → subBlocks s = s := by
  intro s
  induction s with
  | nil => intro _; rw [subBlocks]
  | cons c cs ih =>
    intro h
    rw [containsCi] at h
    have hsw : ciStartsWith openTag (c :: cs) = false := by
      cases hq : ciStartsWith openTag (c :: cs)
      · rfl
      · rw [hq] at h; exact absurd h (by simp)
    have hcs : containsCi openTag cs = false := by
      rw [hsw] at h; simpa using h
    have hcd : ciDrop openTag (c :: cs) = none := by
      cases hq : ciDrop openTag (c :: cs) with
      | none => rfl
      | some a =>
        rw [ciStartsWith_isSome, hq] at hsw
        exact Bool.noConfusion hsw
    have hmb : matchBlock (c :: cs) = none := by
      unfold matchBlock
      rw [hcd]
    rw [subBlocks, hmb, ih hcs]

theorem matchAtUnclosed_false_of_no_tag : ∀ s : List Char,
    containsCi openTag s = false → matchAtUnclosed s = false := by
  intro s
  induction s with
  | nil => intro _; rfl
  | cons c cs ih =>
    intro h
    rw [containsCi] at h
    have hsw : ciStartsWith openTag (c :: cs) = false := by
      cases hq : ciStartsWith openTag (c :: cs)
      · rfl
      · rw [hq] at h; exact absurd h (by simp)
    have hcs : containsCi openTag cs = false := by
      rw [hsw] at h; simpa using h
    rw [matchAtUnclosed, hsw, ih hcs]
    simp

theorem subUnclosed_id_of_no_tag : ∀ s : List Char,
    containsCi openTag s = false → subUnclosed s = s := by
  intro s
  induction s with
  | nil => intro _; rfl
  | cons c cs ih =>
    intro h
    have hma := matchAtUnclosed_false_of_no_tag (c :: cs) h
    rw [subUnclosed, if_neg (by simp [hma])]
    have hcs : containsCi openTag cs = false := by
      rw [containsCi] at h
      cases hq : ciStartsWith openTag (c :: cs) with
      | false => rw [hq] at h; simpa using h
      | true => rw [hq] at h; exact absurd h (by simp)
    rw [ih hcs]

theorem cleanResponse_no_tag (s : List Char) :
    containsCi openTag (cleanResponse s) = false := by
  unfold cleanResponse pyStrip
  have h1 := subUnclosed_no_tag (subBlocks s)
  obtain ⟨w, hw⟩ := dropWhile_suffix isPySpace (subUnclosed (subBlocks s))
  rw [hw] at h1
  have h2 := containsCi_false_left openTag w _ h1
  obtain ⟨r, hr⟩ :=
    rstripWs_prefix ((subUnclosed (subBlocks s)).dropWhile isPySpace)
  rw [hr] at h2
  exact containsCi_false_right openTag _ r h2

theorem cleanResponse_eq_strip (s : List Char)
    (h : containsCi openTag s = false) : cleanResponse s = pyStrip s := by
  unfold cleanResponse
  rw [subBlocks_id_of_no_tag s h, subUnclosed_id_of_no_tag s h]

theorem findClose_append : ∀ (b c : List Char), (∀ x ∈ b, x ≠ '<') →
    findClose (b ++ (closeTag ++ c)) = some c := by
  intro b
  induction b with
  | nil =>
    intro c _
    have hsplit : closeTag ++ c = '<' :: (("/thinking>").toList ++ c) := rfl
    rw [List.nil_append, hsplit, findClose, ← hsplit, ciDrop_append_self]
  | cons x b2 ih =>
    intro c hb
    have hx : x ≠ '<' := hb x (List.mem_cons_self x b2)
    have hnone : ciDrop closeTag (x :: (b2 ++ (closeTag ++ c))) = none := by
      have hc : closeTag = '<' :: ("/thinking>").toList := rfl
      rw [hc]
      exact ciDrop_head_lt_none _ x _ hx
    rw [List.cons_append, findClose, hnone]
    exact ih c (fun y hy => hb y (List.mem_cons_of_mem x hy))

theorem matchBlock_block (b c : List Char) (hb : ∀ x ∈ b, x ≠ '<') :
    matchBlock (openTag ++ (b ++ (closeTag ++ c))) = some (dropWs c) := by
  unfold matchBlock
  rw [ciDrop_append_self]
  simp only [findClose_append b c hb]

theorem subBlocks_block : ∀ (a b c : List Char),
    (∀ x ∈ a, x ≠ '<') → (∀ x ∈ b, x ≠ '<') →
    subBlocks (a ++ (openTag ++ (b ++ (closeTag ++ c)))) =
      a ++ subBlocks (dropWs c) := by
  intro a
  induction a with
  | nil =>
    intro b c _ hb
    have hm := matchBlock_block b c hb
    have hsplit : openTag ++ (b ++ (closeTag ++ c)) =
        '<' :: (("thinking>").toList ++ (b ++ (closeTag ++ c))) := rfl
    rw [List.nil_append, hsplit, subBlocks, ← hsplit, hm, List.nil_append]
  | cons x a2 ih =>
    intro b c ha hb
    have hx : x ≠ '<' := ha x (List.mem_cons_self x a2)
    have hnone : matchBlock (x :: (a2 ++ (openTag ++ (b ++ (closeTag ++ c))))) = none := by
      unfold matchBlock
      have ho : openTag = '<' :: ("thinking>").toList := rfl
      rw [ho, ciDrop_head_lt_none _ x _ hx]
    rw [List.cons_append, subBlocks, hnone, List.cons_append,
      ih b c (fun y hy => ha y (List.mem_cons_of_mem x hy)) hb]

theorem matchAtUnclosed_ws_iff : ∀ (a c : List Char), (∀ x ∈ a, x ≠ '<') →
    (matchAtUnclosed (a ++ (openTag ++ c)) = true ↔
      ∀ x ∈ a, isPySpace x = true) := by
  intro a
  induction a with
  | nil =>
    intro c _
    have hsplit : openTag ++ c = '<' :: (("thinking>").toList ++ c) := rfl
    rw [List.nil_append, hsplit, matchAtUnclosed, ← hsplit,
      ciStartsWith_openTag_append]
    simp
  | cons x a2 ih =>
    intro c ha
    have hx : x ≠ '<' := ha x (List.mem_cons_self x a2)
    have ha2 : ∀ y ∈ a2, y ≠ '<' := fun y hy => ha y (List.mem_cons_of_mem x hy)
    rw [List.cons_append, matchAtUnclosed,
      ciStartsWith_openTag_false x _ hx]
    simp only [Bool.false_or, Bool.and_eq_true, List.forall_mem_cons]
    rw [ih c ha2]

theorem rstripWs_nil_iff : ∀ s : List Char,
    (rstripWs s = [] ↔ ∀ x ∈ s, isPySpace x = true) := by
  intro s
  induction s with
  | nil => simp [rstripWs]
  | cons c cs ih =>
    cases hcs : rstripWs cs with
    | nil =>
      simp only [rstripWs, hcs]
      by_cases hws : isPySpace c = true
      · rw [if_pos hws]
        simp only [List.forall_mem_cons, hws, true_and]
        rw [← ih, hcs]
        simp
      · rw [if_neg hws]
        simp only [List.forall_mem_cons]
        constructor
        · intro h; exact absurd h (by simp)
        · intro h; exact absurd h.1 hws
    | cons d ds =>
      simp only [rstripWs, hcs]
      simp only [List.forall_mem_cons]
      constructor
      · intro h; exact absurd h (by simp)
      · intro h
        have := (ih).2 h.2
        rw [hcs] at this
        exact absurd this (by simp)

theorem subUnclosed_unclosed : ∀ (a c : List Char), (∀ x ∈ a, x ≠ '<') →
    subUnclosed (a ++ (openTag ++ c)) = rstripWs a := by
  intro a
  induction a with
  | nil =>
    intro c _
    have hma : matchAtUnclosed ([] ++ (openTag ++ c)) = true :=
      (matchAtUnclosed_ws_iff [] c (by simp)).2 (by simp)
    rw [List.nil_append] at hma ⊢
    have hsplit : openTag ++ c = '<' :: (("thinking>").toList ++ c) := rfl
    rw [hsplit, subUnclosed, ← hsplit, if_pos (by rw [hma])]
    rfl
  | cons x a2 ih =>
    intro c ha
    have hx : x ≠ '<' := ha x (List.mem_cons_self x a2)
    have ha2 : ∀ y ∈ a2, y ≠ '<' := fun y hy => ha y (List.mem_cons_of_mem x hy)
    by_cases hall : ∀ y ∈ x :: a2, isPySpace y = true
    · have hma : matchAtUnclosed ((x :: a2) ++ (openTag ++ c)) = true :=
        (matchAtUnclosed_ws_iff (x :: a2) c ha).2 hall
      rw [List.cons_append] at hma
      rw [List.cons_append, subUnclosed, if_pos (by rw [hma])]
      exact ((rstripWs_nil_iff (x :: a2)).2 hall).symm
    · have hma : matchAtUnclosed ((x :: a2) ++ (openTag ++ c)) = false := by
        cases hq : matchAtUnclosed ((x :: a2) ++ (openTag ++ c)) with
        | false => rfl
        | true => exact absurd ((matchAtUnclosed_ws_iff (x :: a2) c ha).1 hq) hall
      rw [List.cons_append] at hma
      rw [List.cons_append, subUnclosed, if_neg (by simp [hma]), ih c ha2]
      cases hcs : rstripWs a2 with
      | nil =>
        have halla2 : ∀ y ∈ a2, isPySpace y = true := (rstripWs_nil_iff a2).1 hcs
        have hxws : isPySpace x = false := by
          cases hq : isPySpace x with
          | false => rfl
          | true =>
            exact absurd (by
              intro y hy
              rcases List.mem_cons.1 hy with h1 | h2
              · rw [h1]; exact hq
              · exact halla2 y h2) hall
        simp only [rstripWs, hcs]
        rw [if_neg (by simp [hxws])]
      | cons d ds =>
        simp only [rstripWs, hcs]

/-- C3: the post-processing of each string response in the interactive loop
(`agent.py`, lines 328–343).  (1) After cleaning, no case-insensitive
occurrence of the open tag remains, across newlines and however many blocks
appeared.  (2) On a response containing no open tag the cleaning only strips
surrounding whitespace.  (3) A complete block — the open tag, any body
without a nested tag, the close tag, and the whitespace after it — is
removed wholesale and scanning continues after it, for every such block.
(4) From an unclosed open tag everything up to the end of the string (plus
the whitespace run before the tag) is removed; together with the final
`strip()` this removes exactly the trailing text from the unclosed tag
onward. -/
theorem C3_thinking_tag_cleanup :
    (∀ s : List Char, containsCi openTag (cleanResponse s) = false) ∧
    (∀ s : List Char, containsCi openTag s = false → cleanResponse s = pyStrip s) ∧
    (∀ a b c : List Char, (∀ x ∈ a, x ≠ '<') → (∀ x ∈ b, x ≠ '<') →
      subBlocks (a ++ openTag ++ b ++ closeTag ++ c) = a ++ subBlocks (dropWs c)) ∧
    (∀ a c : List Char, (∀ x ∈ a, x ≠ '<') →
      subUnclosed (a ++ openTag ++ c) = rstripWs a) := by
  refine ⟨cleanResponse_no_tag, cleanResponse_eq_strip, ?_, ?_⟩
  · intro a b c ha hb
    have h := subBlocks_block a b c ha hb
    simp only [List.append_assoc] at h ⊢
    exact h
  · intro a c ha
    have h := subUnclosed_unclosed a c ha
    simp only [List.append_assoc] at h ⊢
    exact h

theorem C3_thinking_tag_cleanup_witness :
    containsCi openTag (("All good.").toList) = false ∧
    cleanResponse (("  All good. ").toList) = pyStrip (("  All good. ").toList) ∧
    subBlocks (("Answer: ").toList ++ openTag ++ ("let me check").toList ++
        closeTag ++ (" 42").toList) =
      ("Answer: ").toList ++ subBlocks (dropWs ((" 42").toList)) ∧
    subUnclosed (("Done ").toList ++ openTag ++ ("oops").toList) =
      rstripWs (("Done ").toList) :=
  ⟨by decide,
   C3_thinking_tag_cleanup.2.1 _ (by decide),
   C3_thinking_tag_cleanup.2.2.1 _ _ _ (by decide) (by decide),
   C3_thinking_tag_cleanup.2.2.2 _ _ (by decide)⟩

/-! ## Rate-limit check in the interactive loop (agent.py, lines 336–341) -/

/-- What the interactive loop prints for one string response. -/
inductive PrintedOutput where
  | rateLimitNotice : PrintedOutput
  | agentText : List Char → PrintedOutput
  | noOutput : PrintedOutput
deriving DecidableEq, Repr

/-- The pattern of `'rate limit' in cleaned_response.lower()`. -/
def rateLimitPat : List Char := ("rate limit").toList

/-- The pattern of `'throttl' in cleaned_response.lower()`. -/
def throttlPat : List Char := ("throttl").toList

/-- The response handling of `main` (`agent.py`, lines 329–341): clean the
response; if the cleaned text mentions a rate limit or throttling
(case-insensitively), print the fixed rate-limit notice; otherwise print the
cleaned text when non-empty, and nothing when it cleaned to empty. -/
def respondOutput (response : List Char) : PrintedOutput :=
  let cleaned := cleanResponse response
  if containsCi rateLimitPat cleaned || containsCi throttlPat cleaned then
    PrintedOutput.rateLimitNotice
  else if cleaned ≠ [] then PrintedOutput.agentText cleaned
  else PrintedOutput.noOutput

/-- C10: whenever the cleaned response text contains `rate limit` or
`throttl` case-insensitively, the interactive loop prints the fixed
rate-limit notice and the agent's response text is never printed — also when
the response is a legitimate answer that merely mentions rate limiting. -/
theorem C10_rate_limit_notice (response : List Char)
    (h : containsCi rateLimitPat (cleanResponse response) = true ∨
         containsCi throttlPat (cleanResponse response) = true) :
    respondOutput response = PrintedOutput.rateLimitNotice ∧
    ∀ t : List Char, respondOutput response ≠ PrintedOutput.agentText t := by
  have hcond : (containsCi rateLimitPat (cleanResponse response) ||
      containsCi throttlPat (cleanResponse response)) = true := by
    rcases h with h | h <;> simp [h]
  constructor
  · simp [respondOutput, hcond]
  · intro t
    simp [respondOutput, hcond]

/-- A legitimate answer that mentions a rate limit. -/
def rateLimitAnswer : List Char :=
  ("Your Lambda is fine; its concurrency Rate Limit is 1000.").toList

theorem C10_rate_limit_notice_witness :
    containsCi rateLimitPat (cleanResponse rateLimitAnswer) = true ∧
    respondOutput rateLimitAnswer = PrintedOutput.rateLimitNotice := by
  have hclean : cleanResponse rateLimitAnswer = pyStrip rateLimitAnswer :=
    cleanResponse_eq_strip _ (by decide)
  have hpat : containsCi rateLimitPat (cleanResponse rateLimitAnswer) = true := by
    rw [hclean]
    decide
  exact ⟨hpat, (C10_rate_limit_notice rateLimitAnswer (Or.inl hpat)).1⟩

/-! ## The run structure of agent.py (C4) -/

/-- An MCP transport handle: the gateway URL and the authorization header. -/
structure Transport where
  url : String
  authHeader : String
deriving DecidableEq, Repr

/-- `create_streamable_http_transport` (`agent.py`, lines 67–69): the
streamable HTTP transport for `mcp_url`, carrying the OAuth token as
`Bearer` authorization header. -/
def create_streamable_http_transport (mcp_url : String) (access_token : String) :
    Transport :=
  ⟨mcp_url, "Bearer " ++ access_token⟩

/-- One observable step of a run of `agent.py`. -/
inductive Step where
  | fetchToken : String → Step
  | openTransport : String → String → Step
  | listToolsCall : Option String → Step
  | constructAgent : List Tool → Step
  | printOut : PrintedOutput → Step
deriving DecidableEq, Repr

/-- The configuration values of `agent.py` read from `config.json`. -/
structure AgentConfig where
  token_url : String
  gateway_url : String
deriving DecidableEq, Repr

/-- The external collaborators of one run of `agent.py`: the token endpoint's
response, the gateway's pages, the hosted model, and the user's inputs
(modelling every agent response as a string). -/
structure AgentEnv where
  access_token : String
  pages : Nat → ToolPage
  modelResponse : List Char → List Char
  userInputs : List (List Char)

/-- `fetch_access_token` (`agent.py`, lines 58–65): POST to the token URL and
take `access_token` from the JSON response; also records the step. -/
def fetch_access_token (cfg : AgentConfig) (env : AgentEnv) : String × List Step :=
  (env.access_token, [Step.fetchToken cfg.token_url])

/-- `create_resource_optimizer_agent` (`agent.py`, lines 188–285): fetch the
token, create the transport with it, enumerate the tools through the gateway,
filter them, and construct the agent with exactly the filtered tools.
Returns the tools handed to `Agent` and the trace of steps, or `none` when
the pagination loop does not finish within `fuel` pages. -/
def create_resource_optimizer_agent (cfg : AgentConfig) (env : AgentEnv)
    (fuel : Nat) : Option (List Tool × List Step) :=
  let fetched := fetch_access_token cfg env
  let transport := create_streamable_http_transport cfg.gateway_url fetched.1
  match get_full_tools_list env.pages fuel with
  | none => none
  | some (all_tools, calls) =>
    let tools := filter_tools_64 all_tools
    some (tools,
      fetched.2 ++
      [Step.openTransport transport.url transport.authHeader] ++
      calls.map Step.listToolsCall ++
      [Step.constructAgent tools])

/-- Case-insensitive ASCII string equality (`user_input.lower() == "exit"`,
`agent.py`, line 318, against the lowercase literal). -/
def ciEqList : List Char → List Char → Bool
  | [], [] => true
  | x :: xs, y :: ys => ciEq x y && ciEqList xs ys
  | _, _ => false

/-- The interactive loop of `main` (`agent.py`, lines 315–343): read inputs
until `exit`, skip blank inputs (`if not user_input.strip(): continue`), and
print the processed response for each remaining input. -/
def interactiveLoop (env : AgentEnv) : List (List Char) → List Step
  | [] => []
  | inp :: rest =>
    if ciEqList inp (("exit").toList) then []
    else if pyStrip inp = [] then interactiveLoop env rest
    else Step.printOut (respondOutput (env.modelResponse inp)) ::
      interactiveLoop env rest

/-- `main` (`agent.py`, lines 287–358): create the agent with its tools, then
run the interactive loop within the MCP client context. -/
def mainRun (cfg : AgentConfig) (env : AgentEnv) (fuel : Nat) :
    Option (List Step) :=
  match create_resource_optimizer_agent cfg env fuel with
  | none => none
  | some (_, steps) => some (steps ++ interactiveLoop env env.userInputs)

/-- C4: every (terminating) run of `agent.py` performs its steps in this
order: fetch the OAuth access token from the token endpoint; open the
streaming transport to the gateway with exactly that token as `Bearer`
header; enumerate the remotely hosted tools through the pagination calls;
construct the agent with exactly the (filtered) enumerated tools; then print
the processed response text for each user input. -/
theorem C4_run_order (cfg : AgentConfig) (env : AgentEnv) (n fuel : Nat)
    (hfuel : n < fuel)
    (hlast : (env.pages n).pagination_token = none)
    (hmid : ∀ k, k < n → (env.pages k).pagination_token ≠ none) :
    mainRun cfg env fuel = some (
      Step.fetchToken cfg.token_url ::
      Step.openTransport cfg.gateway_url ("Bearer " ++ env.access_token) ::
      ((none :: pageTokens env.pages n).map Step.listToolsCall ++
        (Step.constructAgent (filter_tools_64 (pagesTools env.pages (n + 1))) ::
          interactiveLoop env env.userInputs))) := by
  have hg := get_full_tools_list_spec env.pages n fuel hfuel hlast hmid
  unfold mainRun create_resource_optimizer_agent fetch_access_token
    create_streamable_http_transport
  simp only [hg]
  simp [List.append_assoc]

/-- A concrete configuration for the C4 witness. -/
def cfgEx : AgentConfig :=
  ⟨"https://example.auth/oauth2/token", "https://example.gateway/mcp"⟩

/-- A concrete environment for the C4 witness. -/
def envEx : AgentEnv :=
  ⟨"tok-123", gTwoPages, fun _ => ("ok").toList, [("hello").toList]⟩

theorem C4_run_order_witness :
    (envEx.pages 1).pagination_token = none ∧
    mainRun cfgEx envEx 3 = some (
      Step.fetchToken cfgEx.token_url ::
      Step.openTransport cfgEx.gateway_url ("Bearer " ++ envEx.access_token) ::
      ((none :: pageTokens envEx.pages 1).map Step.listToolsCall ++
        (Step.constructAgent (filter_tools_64 (pagesTools envEx.pages 2)) ::
          interactiveLoop envEx envEx.userInputs))) := by
  have hmid : ∀ k, k < 1 → (envEx.pages k).pagination_token ≠ none := by
    intro k hk
    have hk0 : k = 0 := by omega
    rw [hk0]
    decide
  exact ⟨by decide, C4_run_order cfgEx envEx 1 3 (by decide) (by decide) hmid⟩

/-! ## Memory hook provider (agent.py, lines 86–149, C7) -/

/-- One content block of an agent message (`message["content"][i]`); the
`text` entry may be absent (`.get("text")` returning `None`). -/
structure ContentBlock where
  text : Option (List Char)
deriving DecidableEq, Repr

/-- An agent message (`{"role": ..., "content": [...]}`). -/
structure AgentMessage where
  role : List Char
  content : List ContentBlock
deriving DecidableEq, Repr

/-- The `(text, role)` pair handed to `memory_client.create_event`. -/
structure MemoryEventRecord where
  text : List Char
  role : List Char
deriving DecidableEq, Repr

/-- `CostMemoryHookProvider.on_message_added` (`agent.py`, lines 128–144):
look at the newest message; if its first content block has non-empty text,
forward exactly that text (with the message's role) to `create_event`;
otherwise (no message, no content block, no text, empty text — the falsy and
`IndexError` cases, the latter caught by the handler) store nothing. -/
def on_message_added (messages : List AgentMessage) : Option MemoryEventRecord :=
  match messages.getLast? with
  | none => none
  | some m =>
    match m.content.head? with
    | none => none
    | some b =>
      match b.text with
      | none => none
      | some t => if t = [] then none else some ⟨t, m.role⟩

/-- One message of a stored conversation turn as returned by
`get_last_k_turns`. -/
structure MemTurnMessage where
  role : List Char
  text : List Char
deriving DecidableEq, Repr

/-- `"\n".join(context_messages)`. -/
def joinWith (sep : List Char) : List (List Char) → List Char
  | [] => []
  | [x] => x
  | x :: y :: rest => x ++ sep ++ joinWith sep (y :: rest)

/-- The formatting of the loaded history (`agent.py`, lines 113–120): one
`role: content` line per message of each turn, joined by newlines. -/
def formatTurnContext (turns : List (List MemTurnMessage)) : List Char :=
  joinWith (("\n").toList)
    ((turns.flatten).map (fun m => m.role ++ (": ").toList ++ m.text))

/-- The fixed header prepended to the loaded context (`agent.py`, line 122). -/
def contextHeader : List Char := ("\n\nRecent conversation:\n").toList

/-- `CostMemoryHookProvider.on_agent_initialized` (`agent.py`, lines
93–126): if `actor_id` or `session_id` is missing or falsy, leave the system
prompt unchanged; otherwise load the recent turns from the store and, when
they are non-empty, append the fixed header and the formatted conversation
to the system prompt. -/
def on_agent_initialized (actorId sessionId : Option (List Char))
    (systemPrompt : List Char) (recentTurns : List (List MemTurnMessage)) :
    List Char :=
  match actorId, sessionId with
  | some a, some s =>
    if a = [] ∨ s = [] then systemPrompt
    else if recentTurns = [] then systemPrompt
    else systemPrompt ++ contextHeader ++ formatTurnContext recentTurns
  | _, _ => systemPrompt

theorem joinWith_infix (sep : List Char) :
    ∀ (L : List (List Char)) (x : List Char), x ∈ L →
      ∃ u v, joinWith sep L = u ++ x ++ v := by
  intro L
  induction L with
  | nil => intro x hx; exact absurd hx (by simp)
  | cons a rest ih =>
    intro x hx
    cases rest with
    | nil =>
      have hax : x = a := by simpa using hx
      exact ⟨[], [], by simp [joinWith, hax]⟩
    | cons b rest2 =>
      rcases List.mem_cons.1 hx with h1 | h2
      · exact ⟨[], sep ++ joinWith sep (b :: rest2), by simp [joinWith, h1]⟩
      · obtain ⟨u, v, huv⟩ := ih x h2
        exact ⟨a ++ sep ++ u, v, by simp [joinWith, huv]⟩

/-- C7: the memory hook provider consists of two pass-through callbacks.
`on_message_added` forwards the newest message's first-block text verbatim
into the store (when non-empty), and stores nothing otherwise.
`on_agent_initialized` appends the loaded conversation to the agent's system
prompt with only `role: text` formatting: the new prompt is the old prompt
plus the fixed header plus the joined lines, and every stored message's text
appears verbatim in the new prompt. -/
theorem C7_memory_hooks :
    (∀ (messages : List AgentMessage) (m : AgentMessage) (b : ContentBlock)
       (t : List Char),
      messages.getLast? = some m → m.content.head? = some b →
      b.text = some t → t ≠ [] →
      on_message_added messages = some ⟨t, m.role⟩) ∧
    (∀ (messages : List AgentMessage) (m : AgentMessage) (b : ContentBlock),
      messages.getLast? = some m → m.content.head? = some b →
      (b.text = none ∨ b.text = some []) →
      on_message_added messages = none) ∧
    (∀ (a s prompt : List Char) (turns : List (List MemTurnMessage)),
      a ≠ [] → s ≠ [] → turns ≠ [] →
      on_agent_initialized (some a) (some s) prompt turns =
        prompt ++ contextHeader ++ formatTurnContext turns) ∧
    (∀ (a s prompt : List Char) (turns : List (List MemTurnMessage))
       (m : MemTurnMessage),
      a ≠ [] → s ≠ [] → m ∈ turns.flatten →
      ∃ u v, on_agent_initialized (some a) (some s) prompt turns =
        u ++ m.text ++ v) := by
  refine ⟨?_, ?_, ?_, ?_⟩
  · intro messages m b t hm hb ht hne
    unfold on_message_added
    rw [hm]
    simp only [hb, ht]
    rw [if_neg hne]
  · intro messages m b hm hb ht
    unfold on_message_added
    rw [hm]
    rcases ht with h | h <;> simp [hb, h]
  · intro a s prompt turns ha hs hturns
    have h1 : ¬(a = [] ∨ s = []) := by simp [ha, hs]
    simp only [on_agent_initialized]
    rw [if_neg h1, if_neg hturns]
  · intro a s prompt turns m ha hs hmem
    have hturns : turns ≠ [] := by
      intro hnil
      rw [hnil] at hmem
      simp at hmem
    have h1 : ¬(a = [] ∨ s = []) := by simp [ha, hs]
    simp only [on_agent_initialized]
    rw [if_neg h1, if_neg hturns]
    have hline : (m.role ++ (": ").toList ++ m.text) ∈
        (turns.flatten).map (fun x => x.role ++ (": ").toList ++ x.text) :=
      List.mem_map_of_mem _ hmem
    obtain ⟨u, v, huv⟩ :=
      joinWith_infix (("\n").toList) _ _ hline
    refine ⟨prompt ++ contextHeader ++ u ++ m.role ++ (": ").toList, v, ?_⟩
    unfold formatTurnContext
    rw [huv]
    simp [List.append_assoc]

/-- A concrete content block for the C7 witness. -/
def blockEx : ContentBlock := ⟨some (("show idle EC2").toList)⟩

/-- A concrete message for the C7 witness. -/
def msgEx : AgentMessage := ⟨("user").toList, [blockEx]⟩

/-- Concrete hook inputs for the C7 witness. -/
def msgListEx : List AgentMessage := [msgEx]

/-- A concrete stored conversation for the C7 witness. -/
def turnsEx : List (List MemTurnMessage) :=
  [[⟨("user").toList, ("hi").toList⟩,
    ⟨("assistant").toList, ("hello").toList⟩]]

theorem C7_memory_hooks_witness :
    on_message_added msgListEx =
      some ⟨("show idle EC2").toList, ("user").toList⟩ ∧
    on_agent_initialized (some (("actor-1").toList)) (some (("sess-1").toList))
        (("prompt").toList) turnsEx =
      ("prompt").toList ++ contextHeader ++ formatTurnContext turnsEx :=
  ⟨C7_memory_hooks.1 msgListEx msgEx blockEx (("show idle EC2").toList)
     (by decide) (by decide) (by decide) (by decide),
   C7_memory_hooks.2.2.1 _ _ _ turnsEx (by decide) (by decide) (by decide)⟩

/-! ## Token refresh in runtime_agent.py (C8) -/

/-- `get_access_token` (`runtime_agent.py`, lines 26–33): POST to the token
endpoint and return the access token.  The endpoint is modelled as the
sequence `tokenSeq` of tokens it issues; `fetchCount` counts the fetches
performed so far, so each call consumes the next fresh token. -/
def runtime_get_access_token (tokenSeq : Nat → String) (fetchCount : Nat) :
    String × Nat :=
  (tokenSeq fetchCount, fetchCount + 1)

/-- `create_transport` (`runtime_agent.py`, lines 35–38): first obtain a
fresh OAuth token (`token = get_access_token()`), then build the transport
with it as `Bearer` authorization header. -/
def runtime_create_transport (gateway_url : String) (tokenSeq : Nat → String)
    (fetchCount : Nat) : Transport × Nat :=
  let fetched := runtime_get_access_token tokenSeq fetchCount
  (⟨gateway_url, "Bearer " ++ fetched.1⟩, fetched.2)

/-- C8: every creation of the MCP transport in `runtime_agent.py` performs
exactly one fresh token fetch and attaches that very token as `Bearer`
authorization header: the transport created at fetch count `n` carries the
`n`-th issued token (not a cached one), and creating the next transport
carries the `(n+1)`-th issued token. -/
theorem C8_fresh_token_per_transport (gateway_url : String)
    (tokenSeq : Nat → String) (n : Nat) :
    (runtime_create_transport gateway_url tokenSeq n).1.authHeader =
      "Bearer " ++ tokenSeq n ∧
    (runtime_create_transport gateway_url tokenSeq n).2 = n + 1 ∧
    (runtime_create_transport gateway_url tokenSeq
        (runtime_create_transport gateway_url tokenSeq n).2).1.authHeader =
      "Bearer " ++ tokenSeq (n + 1) := by
  refine ⟨rfl, rfl, rfl⟩

/-! ## Provisioning scripts: error handling (C6) -/

/-- The outcome of the `iam_client.create_role` call in
`01-create-iam-role.py`: success, the `EntityAlreadyExistsException`
(handled by its own `except` branch, lines 158–174), or any other exception
(lines 176–178). -/
inductive CreateRoleResult where
  | created : String → CreateRoleResult
  | alreadyExists : CreateRoleResult
  | failed : String → CreateRoleResult
deriving DecidableEq, Repr

/-- The observable outcome of one provisioning-script run: whether the
script printed an error, its exit status, and which SDK calls it attempted,
in order. -/
structure ScriptRun where
  errorPrinted : Bool
  exitCode : Nat
  attempted : List String
deriving DecidableEq, Repr

/-- `create_gateway_role` (`01-create-iam-role.py`, lines 10–178): on
successful `create_role`, attach the inline policy and exit 0 (any exception
in that branch is caught by the generic handler, which prints the error and
calls `sys.exit(1)`); on `EntityAlreadyExistsException`, print a notice and
still attach the policy, returning successfully; on any other `create_role`
exception, print the error and `sys.exit(1)` without attempting the policy
attach.  (A policy-attach failure inside the already-exists handler escapes
uncaught: the interpreter exits nonzero printing a traceback rather than the
script's error message.) -/
def script01Run (createRes : CreateRoleResult) (putRes : Except String Unit) :
    ScriptRun :=
  match createRes with
  | CreateRoleResult.created _ =>
    match putRes with
    | Except.ok _ => ⟨false, 0, [("create_role"), ("put_role_policy")]⟩
    | Except.error _ => ⟨true, 1, [("create_role"), ("put_role_policy")]⟩
  | CreateRoleResult.alreadyExists =>
    match putRes with
    | Except.ok _ => ⟨false, 0, [("create_role"), ("put_role_policy")]⟩
    | Except.error _ => ⟨false, 1, [("create_role"), ("put_role_policy")]⟩
  | CreateRoleResult.failed _ => ⟨true, 1, [("create_role")]⟩

/-- `create_gateway_with_semantic_search` (`02-create-gateway.py`, lines
10–95): one `create_gateway` call; on success exit 0; on any exception print
the error and `sys.exit(1)` (lines 93–95). -/
def script02Run (res : Except String (String × String)) : ScriptRun :=
  match res with
  | Except.ok _ => ⟨false, 0, [("create_gateway")]⟩
  | Except.error _ => ⟨true, 1, [("create_gateway")]⟩

/-- Is this SDK call outcome a failure? -/
def isErrCall : Except String String → Bool
  | Except.ok _ => false
  | Except.error _ => true

/-- `create_all_smithy_targets` (`03-create-smithy-targets.py`, lines
11–137): attempt all three targets in order; a failed
`create_gateway_target` is caught, its error printed, and the loop
`continue`s with the next target (lines 99–101); afterwards the script exits
nonzero only when no target at all was created (lines 103–137).  Returns the
run outcome and the `(index, targetId)` pairs of the created targets. -/
def script03Run (res : Nat → Except String String) :
    ScriptRun × List (Nat × String) :=
  let created := (List.range 3).filterMap (fun i =>
    match res i with
    | Except.ok tid => some (i, tid)
    | Except.error _ => none)
  let anyFailed := (List.range 3).any (fun i => isErrCall (res i))
  (⟨anyFailed, if created.isEmpty then 1 else 0,
    [("CloudWatchTarget"), ("CloudWatchLogsTarget"), ("EBSTarget")]⟩, created)

/-- SDK outcomes for the C6 counterexample: the first target creation fails,
the remaining two succeed. -/
def resEx : Nat → Except String String := fun i =>
  if i = 0 then Except.error ("AccessDeniedException")
  else if i = 1 then Except.ok ("TGT-LOGS")
  else Except.ok ("TGT-EBS")

/-- C6 as stated is false on `03-create-smithy-targets.py`: with the first
`create_gateway_target` call failing, the script still attempts the two
remaining target creations (continuation past the failed call) and
terminates with exit status 0, not a nonzero one. -/
theorem C6_error_exit_counterexample :
    resEx 0 = Except.error ("AccessDeniedException") ∧
    (script03Run resEx).1.errorPrinted = true ∧
    (script03Run resEx).1.attempted =
      [("CloudWatchTarget"), ("CloudWatchLogsTarget"), ("EBSTarget")] ∧
    (script03Run resEx).1.exitCode = 0 ∧
    (script03Run resEx).2 = [(1, ("TGT-LOGS")), (2, ("TGT-EBS"))] := by
  refine ⟨rfl, ?_, rfl, ?_, ?_⟩ <;> decide

/-- C6 (amended): when an SDK call fails, `01-create-iam-role.py` (for any
`create_role` failure other than role-already-exists) and
`02-create-gateway.py` print the error and exit with status 1, attempting
nothing further; `01-create-iam-role.py` handles the role-already-exists
failure by continuing — it still attaches the policy and exits 0 — and
`03-create-smithy-targets.py` prints the error and continues with the
remaining targets, always attempting all three and exiting nonzero only when
every target creation failed. -/
theorem C6_error_exit_amended :
    (∀ (msg : String) (putRes : Except String Unit),
      script01Run (CreateRoleResult.failed msg) putRes =
        ⟨true, 1, [("create_role")]⟩) ∧
    (script01Run CreateRoleResult.alreadyExists (Except.ok ()) =
      ⟨false, 0, [("create_role"), ("put_role_policy")]⟩) ∧
    (∀ msg : String, script02Run (Except.error msg) =
      ⟨true, 1, [("create_gateway")]⟩) ∧
    (∀ res : Nat → Except String String,
      (script03Run res).1.attempted =
        [("CloudWatchTarget"), ("CloudWatchLogsTarget"), ("EBSTarget")] ∧
      (script03Run res).1.errorPrinted =
        (List.range 3).any (fun i => isErrCall (res i)) ∧
      (script03Run res).1.exitCode =
        (if (List.range 3).all (fun i => isErrCall (res i)) then 1 else 0)) := by
  refine ⟨fun msg putRes => rfl, rfl, fun msg => rfl, ?_⟩
  intro res
  refine ⟨rfl, rfl, ?_⟩
  cases h0 : res 0 <;> cases h1 : res 1 <;> cases h2 : res 2 <;>
    simp [script03Run, List.range_succ, h0, h1, h2, isErrCall]

/-! ## Provisioning payloads (C9) -/

/-- A JSON value: the shape of the payload documents the setup scripts send
to the control plane. -/
inductive JsonVal where
  | str : String → JsonVal
  | num : Nat → JsonVal
  | arr : List JsonVal → JsonVal
  | obj : List (String × JsonVal) → JsonVal

/-- The trust policy submitted by `01-create-iam-role.py` (lines 17–28). -/
def trust_policy : JsonVal :=
  JsonVal.obj [
    ("Version", JsonVal.str ("2012-10-17")),
    ("Statement", JsonVal.arr [
      JsonVal.obj [
        ("Effect", JsonVal.str ("Allow")),
        ("Principal", JsonVal.obj [
          ("Service", JsonVal.str ("bedrock-agentcore.amazonaws.com"))]),
        ("Action", JsonVal.str ("sts:AssumeRole"))]])]

/-- The permissions policy submitted by `01-create-iam-role.py`
(lines 31–105). -/
def permissions_policy : JsonVal :=
  JsonVal.obj [
    ("Version", JsonVal.str ("2012-10-17")),
    ("Statement", JsonVal.arr [
      JsonVal.obj [
        ("Sid", JsonVal.str ("EC2ResourceAccess")),
        ("Effect", JsonVal.str ("Allow")),
        ("Action", JsonVal.arr [
          JsonVal.str ("ec2:DescribeInstances"),
          JsonVal.str ("ec2:DescribeVolumes"),
          JsonVal.str ("ec2:DescribeSnapshots"),
          JsonVal.str ("ec2:DescribeAddresses"),
          JsonVal.str ("ec2:DescribeImages"),
          JsonVal.str ("ec2:DescribeSecurityGroups"),
          JsonVal.str ("ec2:DescribeNetworkInterfaces"),
          JsonVal.str ("ec2:DescribeInstanceTypes"),
          JsonVal.str ("ec2:DescribeRegions")]),
        ("Resource", JsonVal.str ("*"))],
      JsonVal.obj [
        ("Sid", JsonVal.str ("EBSResourceAccess")),
        ("Effect", JsonVal.str ("Allow")),
        ("Action", JsonVal.arr [
          JsonVal.str ("ebs:ListSnapshotBlocks"),
          JsonVal.str ("ebs:ListChangedBlocks"),
          JsonVal.str ("ebs:GetSnapshotBlock")]),
        ("Resource", JsonVal.str ("*"))],
      JsonVal.obj [
        ("Sid", JsonVal.str ("RDSResourceAccess")),
        ("Effect", JsonVal.str ("Allow")),
        ("Action", JsonVal.arr [
          JsonVal.str ("rds:DescribeDBInstances"),
          JsonVal.str ("rds:DescribeDBSnapshots"),
          JsonVal.str ("rds:DescribeDBClusters"),
          JsonVal.str ("rds:ListTagsForResource")]),
        ("Resource", JsonVal.str ("*"))],
      JsonVal.obj [
        ("Sid", JsonVal.str ("CloudWatchMetrics")),
        ("Effect", JsonVal.str ("Allow")),
        ("Action", JsonVal.arr [
          JsonVal.str ("cloudwatch:GetMetricStatistics"),
          JsonVal.str ("cloudwatch:ListMetrics"),
          JsonVal.str ("cloudwatch:GetMetricData")]),
        ("Resource", JsonVal.str ("*"))],
      JsonVal.obj [
        ("Sid", JsonVal.str ("CloudWatchLogs")),
        ("Effect", JsonVal.str ("Allow")),
        ("Action", JsonVal.arr [
          JsonVal.str ("logs:DescribeLogGroups"),
          JsonVal.str ("logs:DescribeLogStreams"),
          JsonVal.str ("logs:GetLogEvents"),
          JsonVal.str ("logs:FilterLogEvents")]),
        ("Resource", JsonVal.str ("*"))],
      JsonVal.obj [
        ("Sid", JsonVal.str ("S3SmithySpecAccess")),
        ("Effect", JsonVal.str ("Allow")),
        ("Action", JsonVal.arr [
          JsonVal.str ("s3:GetObject"),
          JsonVal.str ("s3:ListBucket")]),
        ("Resource", JsonVal.arr [
          JsonVal.str ("arn:aws:s3:::cost-explorer-smithy-api"),
          JsonVal.str ("arn:aws:s3:::cost-explorer-smithy-api/*")])]])]

/-- The values the setup scripts read from `config.json`. -/
structure SetupConfig where
  client_id : String
  discovery_url : String
  gateway_role_arn : String
  gateway_id : String
deriving DecidableEq, Repr

/-- The authorizer configuration of `02-create-gateway.py` (lines 38–43),
built from the two Cognito values of `config.json`. -/
def auth_config (cfg : SetupConfig) : JsonVal :=
  JsonVal.obj [
    ("customJWTAuthorizer", JsonVal.obj [
      ("allowedClients", JsonVal.arr [JsonVal.str cfg.client_id]),
      ("discoveryUrl", JsonVal.str cfg.discovery_url)])]

/-- The protocol configuration of `02-create-gateway.py` (lines 46–50). -/
def protocol_configuration : JsonVal :=
  JsonVal.obj [
    ("mcp", JsonVal.obj [("searchType", JsonVal.str ("SEMANTIC"))])]

/-- The S3 bucket hard-coded in `03-create-smithy-targets.py` (line 23). -/
def s3_bucket : String := "cost-explorer-smithy-api"

/-- One Smithy target configuration (`03-create-smithy-targets.py`,
lines 64–72). -/
def smithy_config (uri : String) : JsonVal :=
  JsonVal.obj [
    ("mcp", JsonVal.obj [
      ("smithyModel", JsonVal.obj [
        ("s3", JsonVal.obj [("uri", JsonVal.str uri)])])])]

/-- The three target URIs of `03-create-smithy-targets.py` (lines 36–55). -/
def target_uris : List String :=
  [("s3://") ++ s3_bucket ++ "/cloudwatch-2010-08-01.json",
   ("s3://") ++ s3_bucket ++ "/cloudwatch-logs-2014-03-28.json",
   ("s3://") ++ s3_bucket ++ "/ebs-2019-11-02.json"]

/-- The credential configuration of `03-create-smithy-targets.py`
(lines 31–33). -/
def credential_config : JsonVal :=
  JsonVal.obj [("credentialProviderType", JsonVal.str ("GATEWAY_IAM_ROLE"))]

/-- The `(call, policy document)` payloads `01-create-iam-role.py` submits,
by `create_role` outcome: the create branch submits the trust policy then
the permissions policy; the already-exists branch resubmits the same
permissions policy; a failed create submitted only the trust policy. -/
def script01Payloads (createRes : CreateRoleResult) : List (String × JsonVal) :=
  match createRes with
  | CreateRoleResult.created _ =>
    [("create_role", trust_policy), ("put_role_policy", permissions_policy)]
  | CreateRoleResult.alreadyExists =>
    [("create_role", trust_policy), ("put_role_policy", permissions_policy)]
  | CreateRoleResult.failed _ => [("create_role", trust_policy)]

/-- The configuration payloads `02-create-gateway.py` submits to
`create_gateway` (lines 57–66). -/
def script02Payloads (cfg : SetupConfig) : List (String × JsonVal) :=
  [("authorizerConfiguration", auth_config cfg),
   ("protocolConfiguration", protocol_configuration)]

/-- The `(targetConfiguration, credentialProviderConfigurations)` payloads
`03-create-smithy-targets.py` submits (lines 63–84); the gateway id from
`config.json` is only a call argument, never part of a payload document. -/
def script03Payloads (_cfg : SetupConfig) : List (JsonVal × JsonVal) :=
  target_uris.map (fun uri => (smithy_config uri, credential_config))

/-- C9: the JSON payloads the provisioning scripts send are static.  Every
policy document `01-create-iam-role.py` submits is one of the two fixed
documents, and the create branch and the already-exists branch submit
exactly the same documents; the gateway payloads of `02-create-gateway.py`
depend on nothing but the `client_id` and `discovery_url` values read from
`config.json`; and the target payloads of `03-create-smithy-targets.py` are
the same fixed documents for every configuration. -/
theorem C9_static_payloads :
    (∀ (r : CreateRoleResult) (p : String × JsonVal), p ∈ script01Payloads r →
      p.2 = trust_policy ∨ p.2 = permissions_policy) ∧
    (∀ arn : String, script01Payloads (CreateRoleResult.created arn) =
      script01Payloads CreateRoleResult.alreadyExists) ∧
    (∀ cfg cfg2 : SetupConfig, cfg.client_id = cfg2.client_id →
      cfg.discovery_url = cfg2.discovery_url →
      script02Payloads cfg = script02Payloads cfg2) ∧
    (∀ cfg cfg2 : SetupConfig, script03Payloads cfg = script03Payloads cfg2) := by
  refine ⟨?_, fun arn => rfl, ?_, fun cfg cfg2 => rfl⟩
  · intro r p hp
    cases r with
    | created arn =>
      rcases List.mem_cons.1 hp with h | h
      · left; rw [h]
      · right; rw [List.mem_singleton.1 h]
    | alreadyExists =>
      rcases List.mem_cons.1 hp with h | h
      · left; rw [h]
      · right; rw [List.mem_singleton.1 h]
    | failed msg =>
      left; rw [List.mem_singleton.1 hp]
  · intro cfg cfg2 h1 h2
    unfold script02Payloads auth_config
    rw [h1, h2]

/-- A concrete configuration for the C9 witness. -/
def cfgA : SetupConfig :=
  ⟨"client-1", "https://cognito.example/discovery",
   "arn:aws:iam::111:role/A", "gw-1"⟩

/-- A second configuration differing from `cfgA` outside the Cognito
values. -/
def cfgB : SetupConfig :=
  ⟨"client-1", "https://cognito.example/discovery",
   "arn:aws:iam::222:role/B", "gw-2"⟩

theorem C9_static_payloads_witness :
    (("create_role", trust_policy).2 = trust_policy ∨
      ("create_role", trust_policy).2 = permissions_policy) ∧
    script02Payloads cfgA = script02Payloads cfgB :=
  ⟨C9_static_payloads.1 CreateRoleResult.alreadyExists
     ("create_role", trust_policy) (List.mem_cons_self _ _),
   C9_static_payloads.2.2.1 cfgA cfgB rfl rfl⟩
